import Mathlib

/-!
Verification development for the `ruth` evaluation core: a shallow embedding
of the value graph, environment chain, trampolined evaluator and
destructuring binder, together with theorems about them.

Modelling conventions:
* `Gc<Expr>` pointers become plain immutable `Expr` values; the only mutable
  cells in the source are `GcCell<Namespace>`, which are modelled by an
  explicit heap (`List Namespace`) addressed by allocation index.
* Rust `u64`/`i64` become `Nat`/`Int`; the symbol counter never wraps in any
  behaviour the theorems touch, so no modular reduction is needed.
* `f64` payloads are carried as their bit pattern (`Nat`); no theorem here
  computes with floats.
* Function pointers stored in `SpecialForm`/`NativeProcedure` nodes become
  integer identifiers interpreted through an explicit table of
  implementations (`Impls`); the standard-library bodies are external
  collaborators of the core, so the theorems quantify over the table.
* `HashMap` bindings are modelled as association lists where insertion
  prepends and lookup takes the first hit, which realises the overwrite
  semantics of `HashMap::insert` for lookups.
-/

namespace Ruth

/-- Interned symbol handle, `type Symbol = u64` in `src/src/lib.rs`. -/
abbrev Symbol := Nat

/-- Identifier standing for a native/special-form function pointer. -/
abbrev FuncId := Nat

/-- Reference to a `Gc<GcCell<Namespace>>` cell: an index into the heap. -/
abbrev EnvRef := Nat

/-- The value/expression graph node, `enum Expr` in `src/src/lib.rs`
lines 24-61.  The `procedure` variant follows the shape the evaluator
in `src/src/eval/mod.rs` (lines 74-79) matches on: a list of plain
parameter symbols, a body, the captured environment and a variadic flag. -/
inductive Expr where
  | integer (i : Int)
  | float (bits : Nat)
  | string (s : String)
  | symbol (sym : Symbol)
  | pair (car cdr : Expr)
  | nil
  | specialForm (func : FuncId) (name : Symbol)
  | nativeProcedure (func : FuncId) (name : Symbol)
  | procedure (args : List Symbol) (body : List Expr) (env : EnvRef)
      (variadic : Bool)
  deriving Repr

/-- Symbol-interning state of `struct Engine` (`src/src/lib.rs` lines 82-90):
the bidirectional map of interned symbols as an association list plus the
count of symbols ever created.  (The root namespace lives in the heap in
this model, so it is not a field here.) -/
structure Engine where
  symbols : List (String × Symbol)
  akashic : Nat
  deriving Repr, DecidableEq

/-- `interned_symbols.get_by_left`. -/
def Engine.getByLeft (eng : Engine) (s : String) : Option Symbol :=
  (eng.symbols.find? (fun p => p.1 = s)).map (·.2)

/-- `interned_symbols.get_by_right`. -/
def Engine.getByRight (eng : Engine) (id : Symbol) : Option String :=
  (eng.symbols.find? (fun p => p.2 = id)).map (·.1)

/-- `Engine::intern_symbol` (`src/src/lib.rs` lines 325-335): reuse the
existing handle if the string is interned, otherwise assign the next id. -/
def Engine.internSymbol (eng : Engine) (s : String) : Engine × Symbol :=
  match eng.getByLeft s with
  | some already => (eng, already)
  | none =>
      (⟨eng.symbols ++ [(s, eng.akashic)], eng.akashic + 1⟩, eng.akashic)

/-- `Engine::find_symbol` (`src/src/lib.rs` lines 347-349). -/
def Engine.findSymbol (eng : Engine) (s : String) : Option Symbol :=
  eng.getByLeft s

/-- `Engine::get_symbol_str` (`src/src/lib.rs` lines 351-357). -/
def Engine.getSymbolStr (eng : Engine) (id : Symbol) : Option String :=
  eng.getByRight id

/-- `Engine::list_to_sexp` (`src/src/lib.rs` lines 390-396): build a cons
list from a sequence of values. -/
def listToSexp : List Expr → Expr
  | [] => .nil
  | car :: cdr => .pair car (listToSexp cdr)

/-- `Engine::expr_to_improper_list` (`src/src/lib.rs` lines 374-387):
collect the cars along the right spine and return them with the spine's
final non-pair expression. -/
def exprToImproperList : Expr → List Expr × Expr
  | .pair car cdr =>
      let (rest, last) := exprToImproperList cdr
      (car :: rest, last)
  | e => ([], e)

/-- `Engine::sexp_to_list` (`src/src/lib.rs` lines 363-370): `some` of the
element sequence when the expression is a proper list, else `none`. -/
def sexpToList (e : Expr) : Option (List Expr) :=
  let (list, last) := exprToImproperList e
  match last with
  | .nil => some list
  | _ => none

/-- Rendering of an `f64` payload.  Exact `f64` `Display` formatting is a
presentation concern external to the core (spec §6); only the fact that a
float prints as some string matters to any theorem here. -/
def floatRepr (bits : Nat) : String :=
  "<float #" ++ toString bits ++ ">"

/-- Rendering of a `String` payload with Rust's `{:?}`, modelled for the
common escapes; full Rust `Debug` escaping is presentation-level detail no
theorem depends on. -/
def stringDebugRepr (s : String) : String :=
  let esc := String.join (s.toList.map (fun c =>
    if c = '\\' then "\\\\"
    else if c = '"' then "\\\""
    else if c = '\n' then "\\n"
    else if c = '\t' then "\\t"
    else String.singleton c))
  "\"" ++ esc ++ "\""

mutual

/-- `Engine::write_expr` (`src/src/lib.rs` lines 134-250): render an
expression back to readable syntax.  The `procedure` branch follows the
source's structure for the parameter shape this model carries (plain
symbols, no default expressions). -/
def writeExpr (eng : Engine) : Expr → String
  | .integer i => toString i
  | .float bits => floatRepr bits
  | .symbol sym =>
      match eng.getSymbolStr sym with
      | some s => s
      | none => "<unknown #" ++ toString sym ++ ">"
  | .pair car cdr => "(" ++ writeExprList eng car cdr ++ ")"
  | .nil => "()"
  | .string s => stringDebugRepr s
  | .specialForm _ name =>
      match eng.getSymbolStr name with
      | some s => "<special form " ++ s ++ ">"
      | none => "<anonymous special form>"
  | .nativeProcedure _ name =>
      match eng.getSymbolStr name with
      | some s => "<native proc " ++ s ++ ">"
      | none => "<anonymous native proc>"
  | .procedure args body _ variadic =>
      let symStr := fun (sym : Symbol) =>
        match eng.getSymbolStr sym with
        | some s => s
        | none => "<unknown>"
      let (drawNow, special) :=
        if variadic && args.length > 0 then
          (args.take (args.length - 1), true)
        else (args, false)
      let argsStr := String.intercalate " " (drawNow.map symStr)
      let trailStr :=
        if special then
          ". " ++ (match args.getLast? with
                   | some sym => symStr sym
                   | none => "<unknown>")
        else ""
      "(lambda (" ++ argsStr ++ trailStr ++ ")" ++
        writeExprBodies eng body ++ ")"
termination_by e => (sizeOf e, 2)

/-- The inner `write_list` of `Engine::write_expr` (`src/src/lib.rs`
lines 147-168). -/
def writeExprList (eng : Engine) (car cdr : Expr) : String :=
  writeExpr eng car ++
    match cdr with
    | .nil => ""
    | .pair cdar cddr => " " ++ writeExprList eng cdar cddr
    | other => " . " ++ writeExpr eng other
termination_by (1 + sizeOf car + sizeOf cdr, 1)

/-- Rendering of a procedure's body expressions, each preceded by a
space (`src/src/lib.rs` lines 238-241). -/
def writeExprBodies (eng : Engine) : List Expr → String
  | [] => ""
  | e :: rest => " " ++ writeExpr eng e ++ writeExprBodies eng rest
termination_by es => (sizeOf es, 2)

end

/-- `Engine::make_err` (`src/src/lib.rs` lines 425-437): intern the marker
symbol `!` and build the tagged error list `(! "msg")` or
`(! "msg" userdata)`. -/
def makeErr (eng : Engine) (msg : String) (userdata : Option Expr) :
    Engine × Expr :=
  let (eng1, ohNo) := eng.internSymbol "!"
  match userdata with
  | some ud =>
      (eng1, listToSexp [.symbol ohNo, .string msg, ud])
  | none =>
      (eng1, listToSexp [.symbol ohNo, .string msg])

/-- The error-detection convention from spec §6: "is this value an error"
is "is it a pair whose first element equals the reserved marker symbol".
The check itself lives in callers outside this core, so it is written from
the spec's words to be compared with what `make_err` constructs. -/
def isErrorCheck (marker : Symbol) (e : Expr) : Bool :=
  match e with
  | .pair (.symbol s) _ => s = marker
  | _ => false

/-- `struct Namespace` (`src/src/lib.rs` lines 446-450): a mapping from
symbols to values plus an optional parent scope.  The `HashMap` becomes an
association list whose lookup takes the first hit. -/
structure Namespace where
  mappings : List (Symbol × Expr)
  parent : Option EnvRef
  deriving Repr

/-- `HashMap::get` over the association-list model. -/
def lookupMapping : List (Symbol × Expr) → Symbol → Option Expr
  | [], _ => none
  | (k, v) :: rest, sym => if k = sym then some v else lookupMapping rest sym

/-- `Namespace::insert` (`src/src/lib.rs` lines 460-462) on one scope:
`HashMap::insert` overwrites, which the list model realises by prepending
(the new entry is found first). -/
def Namespace.insert (ns : Namespace) (sym : Symbol) (v : Expr) :
    Namespace :=
  { ns with mappings := (sym, v) :: ns.mappings }

/-- `Namespace::new` (`src/src/lib.rs` lines 453-458). -/
def Namespace.child (parent : EnvRef) : Namespace :=
  { mappings := [], parent := some parent }

/-- The heap of `Gc<GcCell<Namespace>>` cells, addressed by allocation
index; allocation appends, so a namespace's parent (which exists before
the namespace is created and is never reassigned) always has a smaller
index than the namespace itself. -/
abbrev Heap := List Namespace

/-- `Namespace::insert` through a heap reference: mutate the cell `r`
points at, leaving every other cell untouched. -/
def heapInsert (h : Heap) (r : EnvRef) (sym : Symbol) (v : Expr) : Heap :=
  match h[r]? with
  | none => h
  | some ns => h.set r (ns.insert sym v)

/-- `Namespace::lookup` (`src/src/lib.rs` lines 464-470): check the local
mapping, on a miss delegate to the parent.  The recursion is guarded by
`p < r`, which is always satisfied because parents are allocated before
their children and never reassigned (see `Heap`); on a heap violating that
invariant the guard stops where the source would chase the pointer. -/
def envLookup (h : Heap) (r : EnvRef) (sym : Symbol) : Option Expr :=
  match h[r]? with
  | none => none
  | some ns =>
      match lookupMapping ns.mappings sym with
      | some v => some v
      | none =>
          match ns.parent with
          | some p => if _hp : p < r then envLookup h p sym else none
          | none => none
termination_by r

/-- The chain of scopes walked outward from `r`: `r` itself, then its
parent, then the grandparent, and so on (same guard as `envLookup`). -/
def envChain (h : Heap) (r : EnvRef) : List EnvRef :=
  match h[r]? with
  | none => [r]
  | some ns =>
      match ns.parent with
      | some p => if _hp : p < r then r :: envChain h p else [r]
      | none => [r]
termination_by r

/-- Combined interning and heap state threaded through evaluation:
the `&mut Engine` receiver plus the graph of namespace cells. -/
structure EState where
  eng : Engine
  heap : Heap
  deriving Repr

/-- `struct TailRec` (`src/src/eval/mod.rs` line 7): a tail-call request
carrying the next expression and the next environment. -/
structure TailRec where
  expr : Expr
  env : EnvRef
  deriving Repr

/-- Interpretation table for the function pointers stored in
`SpecialForm` / `NativeProcedure` nodes.  Their bodies are the external
standard library (spec §1, §6): a special form receives the engine state,
the caller's environment and the unevaluated operands and may answer a
tail-call request; a native procedure receives the state and the evaluated
operands and answers a value (`src/src/eval/mod.rs` lines 64-72). -/
structure Impls where
  special : FuncId → EState → EnvRef → List Expr →
    EState × Except TailRec Expr
  native : FuncId → EState → List Expr → EState × Expr

/-- Argument-binding loop of procedure application
(`src/src/eval/mod.rs` lines 89-116), one iteration per parameter symbol:
`idx` is the loop counter, `total` the declared parameter count, `acc` the
`arg_env` mappings filled so far.  On running out of arguments it builds
the arity error (message, then the `(expected variadic-flag got)` payload)
and aborts without yielding any binding. -/
def bindArgsGo (eng : Engine) (total : Nat) (variadic : Bool)
    (argsEvaled : List Expr) :
    Nat → List Symbol → List (Symbol × Expr) →
    Engine × Except Expr (List (Symbol × Expr))
  | _, [], acc => (eng, .ok acc)
  | idx, sym :: rest, acc =>
    if variadic && idx = total - 1 then
      let trail := listToSexp (argsEvaled.drop idx)
      bindArgsGo eng total variadic argsEvaled (idx + 1) rest
        ((sym, trail) :: acc)
    else
      match argsEvaled[idx]? with
      | some arg =>
          bindArgsGo eng total variadic argsEvaled (idx + 1) rest
            ((sym, arg) :: acc)
      | none =>
          let message := "application: expected " ++ toString total ++
            (if variadic then " or more" else "") ++
            " args but only got " ++ toString idx
          let (eng1, truth) :=
            eng.internSymbol (if variadic then "true" else "false")
          let data := listToSexp
            [.integer total, .symbol truth, .integer idx]
          let (eng2, e) := makeErr eng1 message (some data)
          (eng2, .error e)

/-- The whole binding loop of `src/src/eval/mod.rs` lines 89-116 over the
declared parameter list. -/
def bindArgs (eng : Engine) (argNames : List Symbol) (variadic : Bool)
    (argsEvaled : List Expr) : Engine × Except Expr (List (Symbol × Expr)) :=
  bindArgsGo eng argNames.length variadic argsEvaled 0 argNames []

/-- `match &body[..] { [body @ .., tail] => .., [] => .. }`
(`src/src/eval/mod.rs` lines 120-130): split off the last element. -/
def splitLast : List Expr → Option (List Expr × Expr)
  | [] => none
  | [e] => some ([], e)
  | e :: rest =>
      match splitLast rest with
      | some (init, tail) => some (e :: init, tail)
      | none => none

mutual

/-- `Engine::eval` (`src/src/eval/mod.rs` lines 12-22): the trampoline.
One call to the single-step function; a final value ends the loop, a
tail-call request is substituted into the loop variables and the loop
continues.  The fuel counter is the standard encoding of a possibly
diverging loop; `none` means the fuel ran out. -/
def eval (impls : Impls) : Nat → EState → EnvRef → Expr →
    Option (EState × Expr)
  | 0, _, _, _ => none
  | fuel + 1, st, env, expr =>
      match evalRec impls fuel st env expr with
      | none => none
      | some (st1, .ok val) => some (st1, val)
      | some (st1, .error tc) => eval impls fuel st1 tc.env tc.expr

/-- `Engine::eval_rec` (`src/src/eval/mod.rs` lines 24-140): the
single-step function, returning `ok (final value)` or
`error (tail-call request)`.  The passthru arm of that revision predates
the `Float` variant (its match is exhaustive without one); floats are
literal values, so per spec §4.1 they are modelled in the
self-evaluating arm. -/
def evalRec (impls : Impls) : Nat → EState → EnvRef → Expr →
    Option (EState × Except TailRec Expr)
  | 0, _, _, _ => none
  | fuel + 1, st, env, expr =>
      match expr with
      | .integer _ | .nil | .string _ | .float _ | .specialForm _ _
      | .nativeProcedure _ _ | .procedure _ _ _ _ =>
          some (st, .ok expr)
      | .symbol id =>
          match envLookup st.heap env id with
          | some it => some (st, .ok it)
          | none =>
              let (eng1, res) := makeErr st.eng
                ("application: '" ++ writeExpr st.eng (.symbol id) ++
                  " is undefined")
                (some (.symbol id))
              some ({ st with eng := eng1 }, .ok res)
      | .pair car cdr =>
          match eval impls fuel st env car with
          | none => none
          | some (st1, carV) =>
              match sexpToList cdr with
              | none =>
                  let (eng1, res) := makeErr st1.eng
                    "application: cdr must be a proper list" (some cdr)
                  some ({ st1 with eng := eng1 }, .ok res)
              | some args =>
                  match carV with
                  | .specialForm func _ =>
                      some (impls.special func st1 env args)
                  | .nativeProcedure func _ =>
                      match evalArgs impls fuel st1 env args with
                      | none => none
                      | some (st2, evaledArgs) =>
                          let (st3, res) := impls.native func st2 evaledArgs
                          some (st3, .ok res)
                  | .procedure argNames body closedEnv variadic =>
                      match evalArgs impls fuel st1 env args with
                      | none => none
                      | some (st2, argsPassedEvaled) =>
                          match bindArgs st2.eng argNames variadic
                              argsPassedEvaled with
                          | (eng3, .error e) =>
                              some ({ st2 with eng := eng3 }, .ok e)
                          | (eng3, .ok argEnvMappings) =>
                              let argEnv := st2.heap.length
                              let heap3 := st2.heap ++
                                [⟨argEnvMappings, some closedEnv⟩]
                              match splitLast body with
                              | none =>
                                  let (eng4, res) := makeErr eng3
                                    "application: had a procedure with no body sexprs"
                                    none
                                  some (⟨eng4, heap3⟩, .ok res)
                              | some (bodyInit, tail) =>
                                  match evalBody impls fuel ⟨eng3, heap3⟩
                                      argEnv bodyInit with
                                  | none => none
                                  | some st4 =>
                                      some (st4, .error ⟨tail, argEnv⟩)
                  | other =>
                      let (eng4, res) := makeErr st1.eng
                        "application: not a procedure" (some other)
                      some ({ st1 with eng := eng4 }, .ok res)

/-- Left-to-right eager evaluation of an operand sequence in the given
environment (`src/src/eval/mod.rs` lines 67-70 and 84-87). -/
def evalArgs (impls : Impls) : Nat → EState → EnvRef → List Expr →
    Option (EState × List Expr)
  | 0, _, _, _ => none
  | _ + 1, st, _, [] => some (st, [])
  | fuel + 1, st, env, a :: rest =>
      match eval impls fuel st env a with
      | none => none
      | some (st1, v) =>
          match evalArgs impls fuel st1 env rest with
          | none => none
          | some (st2, vs) => some (st2, v :: vs)

/-- Evaluation of the non-tail body expressions for side effects,
discarding the results (`src/src/eval/mod.rs` lines 131-133). -/
def evalBody (impls : Impls) : Nat → EState → EnvRef → List Expr →
    Option EState
  | 0, _, _, _ => none
  | _ + 1, st, _, [] => some st
  | fuel + 1, st, env, e :: rest =>
      match eval impls fuel st env e with
      | none => none
      | some (st1, _) => evalBody impls fuel st1 env rest

end

namespace Destructure

/-!
The destructuring binder lives in `src/src/eval/destructure.rs`, written
against a later revision of the value type than `src/src/lib.rs`: its
`Expr` additionally has an associative `Map` variant and failures travel
through a dedicated `Exception` channel.  Those two definitions are not
under `src/`, so they are modelled from the spec here; the matcher itself
(`recurse` / `recurse_opt`) is translated from the source file.
-/

/-- Modelled from the spec: the value type §3 as seen by the binder, i.e.
the data-model variants of `Expr` plus the associative/map structure that
§4.2 rule 5 matches on (`Expr::Map` in `src/src/eval/destructure.rs`,
whose defining revision of `lib.rs` is not in the repository snapshot).
Map entries are an association list keyed by structural equality; the
callable variants play no role in any destructuring claim and are carried
as opaque tags so that the fallback-equality and mismatch rules still see
them. -/
inductive DExpr where
  | integer (i : Int)
  | float (bits : Nat)
  | string (s : String)
  | symbol (sym : Ruth.Symbol)
  | pair (car cdr : DExpr)
  | nil
  | callable (tag : Nat)
  | map (entries : List (DExpr × DExpr))
  deriving Repr

mutual

/-- Structural equality, Rust `PartialEq for Expr` as used by the
`spec == val` fallback and by map-key lookup.  (On the `f64` payload this
compares bit patterns; `f64` `PartialEq` semantics for NaN is irrelevant
to every claim, none of which involves floats.  On maps it is list
equality, reachable only through keys since the `(Map, Map)` rule matches
before the fallback.) -/
def beqDExpr : DExpr → DExpr → Bool
  | .integer a, .integer b => a = b
  | .float a, .float b => a = b
  | .string a, .string b => a = b
  | .symbol a, .symbol b => a = b
  | .pair a1 d1, .pair a2 d2 => beqDExpr a1 a2 && beqDExpr d1 d2
  | .nil, .nil => true
  | .callable a, .callable b => a = b
  | .map m1, .map m2 => beqDMapEntries m1 m2
  | _, _ => false
termination_by a _b => (sizeOf a, 0)

/-- Entrywise equality of map entry lists. -/
def beqDMapEntries : List (DExpr × DExpr) → List (DExpr × DExpr) → Bool
  | [], [] => true
  | (k1, v1) :: r1, (k2, v2) :: r2 =>
      beqDExpr k1 k2 && beqDExpr v1 v2 && beqDMapEntries r1 r2
  | _, _ => false
termination_by xs _ys => (sizeOf xs, 1)

end

/-- `HashMap::get` on a map value: find the entry whose key structurally
equals `k` (`val_map.get(spec_k)` in `src/src/eval/destructure.rs`
line 88). -/
def mapGet : List (DExpr × DExpr) → DExpr → Option DExpr
  | [], _ => none
  | (k', v) :: rest, k => if beqDExpr k' k then some v else mapGet rest k

/-- Modelled from the spec: the binder's "distinct local failure channel
... a result type, not the tagged-value convention" (§7).  The `Exception`
type referenced by `src/src/eval/destructure.rs` is not under `src/`; it
carries what the three-argument `make_err` calls there supply: an error
name, a message, and an optional payload value. -/
structure Exception where
  name : String
  message : String
  payload : Option DExpr
  deriving Repr

/-- Modelled from the spec: the three-argument `Engine::make_err` used by
`src/src/eval/destructure.rs` (not under `src/`), packaging its arguments
into the binder's failure channel. -/
def makeExc (name msg : String) (payload : Option DExpr) : Exception :=
  ⟨name, msg, payload⟩

/-- The flat binding mapping produced by a match; `HashMap` again as an
association list with first-hit lookup. -/
abbrev Bindings := List (Ruth.Symbol × DExpr)

/-- `out.extend(new)` on `HashMap`: entries of `new` overwrite entries of
`out`, realised by putting `new` in front for first-hit lookup. -/
def extendBindings (out new : Bindings) : Bindings :=
  new ++ out

/-- `Engine::list_to_sexp` over the binder's value type (used by the
mismatch error payload in `src/src/eval/destructure.rs` line 108). -/
def listToDSexp : List DExpr → DExpr
  | [] => .nil
  | car :: cdr => .pair car (listToDSexp cdr)

/-- Modelled from the spec: the value→string conversion used only to build
diagnostic messages; §6 declares exact formatting a presentation concern
external to the core, and no claim inspects these strings. -/
def writeDExpr : DExpr → String
  | .integer i => toString i
  | .float bits => Ruth.floatRepr bits
  | .string s => Ruth.stringDebugRepr s
  | .symbol sym => "<sym #" ++ toString sym ++ ">"
  | .pair _ _ => "<pair>"
  | .nil => "()"
  | .callable t => "<callable #" ++ toString t ++ ">"
  | .map _ => "<map>"

mutual

/-- The inner `recurse_opt` of `Engine::destructure_assign`
(`src/src/eval/destructure.rs` lines 26-42): first intern `default` (the
source does so unconditionally before inspecting the value), then match
the spec against a present value, or fail with the no-default error when
there is no value at all. -/
def recurseOpt (eng : Ruth.Engine) (spec : DExpr) (val : Option DExpr) :
    Ruth.Engine × Except Exception Bindings :=
  let (eng1, _defaultSym) := eng.internSymbol "default"
  match val with
  | some v => recurse eng1 spec v
  | none =>
      (eng1, .error (makeExc "assignment/no-default"
        "lack of value with no default" none))
termination_by (sizeOf spec, 1)

/-- The inner `recurse` of `Engine::destructure_assign`
(`src/src/eval/destructure.rs` lines 44-112).  The console trace
(`println!`) has no observable effect on the result and is not modelled
(spec §4.2 requires it to become an optional observer anyway). -/
def recurse (eng : Ruth.Engine) (spec val : DExpr) :
    Ruth.Engine × Except Exception Bindings :=
  let (eng1, underscore) := eng.internSymbol "_"
  match spec, val with
  | .symbol sym, _ =>
      if sym = underscore then (eng1, .ok [])
      else (eng1, .ok [(sym, val)])
  | .pair specCar specCdr, .pair valCar valCdr =>
      match recurse eng1 specCar valCar with
      | (eng2, .error e) => (eng2, .error e)
      | (eng2, .ok m1) =>
          match recurse eng2 specCdr valCdr with
          | (eng3, .error e) => (eng3, .error e)
          | (eng3, .ok m2) => (eng3, .ok (extendBindings m1 m2))
  | .pair specCar specCdr, .nil =>
      match recurseOpt eng1 specCar none with
      | (eng2, .error e) => (eng2, .error e)
      | (eng2, .ok m1) =>
          match recurseOpt eng2 specCdr none with
          | (eng3, .error e) => (eng3, .error e)
          | (eng3, .ok m2) => (eng3, .ok (extendBindings m1 m2))
  | .map specMap, .map valMap =>
      recurseMapEntries eng1 specMap valMap []
  | _, _ =>
      if beqDExpr spec val then (eng1, .ok [])
      else
        let s := writeDExpr spec
        let v := writeDExpr val
        (eng1, .error (makeExc "assignment/invalid"
          ("cannot bind " ++ v ++ " to " ++ s)
          (some (listToDSexp [spec, val]))))
termination_by (sizeOf spec, 0)

/-- The `(Map, Map)` loop of `recurse` (`src/src/eval/destructure.rs`
lines 84-96), one iteration per pattern entry: a key present in the value
recurses the entry's sub-pattern against the entry's value; a missing key
goes through `recurse_opt` with no value (the source hands it the pattern
KEY, `spec_k`).  `acc` is the `out` map being extended. -/
def recurseMapEntries (eng : Ruth.Engine)
    (entries : List (DExpr × DExpr)) (valMap : List (DExpr × DExpr))
    (acc : Bindings) : Ruth.Engine × Except Exception Bindings :=
  match entries with
  | [] => (eng, .ok acc)
  | (specK, specV) :: rest =>
      match mapGet valMap specK with
      | some valV =>
          match recurse eng specV valV with
          | (eng2, .error e) => (eng2, .error e)
          | (eng2, .ok m) =>
              recurseMapEntries eng2 rest valMap (extendBindings acc m)
      | none =>
          match recurseOpt eng specK none with
          | (eng2, .error e) => (eng2, .error e)
          | (eng2, .ok m) =>
              recurseMapEntries eng2 rest valMap (extendBindings acc m)
termination_by (sizeOf entries, 2)

end

/-- `Engine::destructure_assign` (`src/src/eval/destructure.rs`
lines 21-156): the public entry point simply starts `recurse`; the
`check_default` combinator defined alongside is never invoked (spec §9,
"unwired default-combinator"). -/
def destructureAssign (eng : Ruth.Engine) (spec val : DExpr) :
    Ruth.Engine × Except Exception Bindings :=
  recurse eng spec val

end Destructure

/-! ## Theorems -/

/-- The "proper list" side condition of `sexp_to_list`'s contract: does
the right spine of the expression terminate in `Nil`? -/
def spineEndsInNil : Expr → Bool
  | .pair _ cdr => spineEndsInNil cdr
  | .nil => true
  | _ => false

theorem exprToImproperList_listToSexp (vs : List Expr) :
    exprToImproperList (listToSexp vs) = (vs, .nil) := by
  induction vs with
  | nil => simp [listToSexp, exprToImproperList]
  | cons car cdr ih => simp [listToSexp, exprToImproperList, ih]

theorem exprToImproperList_last_nil :
    ∀ e : Expr, ((exprToImproperList e).2 = .nil ↔ spineEndsInNil e = true)
  | .pair car cdr => by
      have ih := exprToImproperList_last_nil cdr
      simp [exprToImproperList, spineEndsInNil]
      exact ih
  | .integer _ => by simp [exprToImproperList, spineEndsInNil]
  | .float _ => by simp [exprToImproperList, spineEndsInNil]
  | .string _ => by simp [exprToImproperList, spineEndsInNil]
  | .symbol _ => by simp [exprToImproperList, spineEndsInNil]
  | .nil => by simp [exprToImproperList, spineEndsInNil]
  | .specialForm _ _ => by simp [exprToImproperList, spineEndsInNil]
  | .nativeProcedure _ _ => by simp [exprToImproperList, spineEndsInNil]
  | .procedure _ _ _ _ => by simp [exprToImproperList, spineEndsInNil]

/-- C10: the list⇄pair converters round-trip — `sexp_to_list` recovers
exactly the sequence `list_to_sexp` was given — and `sexp_to_list`
answers `none` exactly on the expressions whose right spine does not
terminate in `Nil` (the non-proper-lists). -/
theorem sexp_list_roundtrip :
    (∀ vs : List Expr, sexpToList (listToSexp vs) = some vs) ∧
    (∀ e : Expr, sexpToList e = none ↔ spineEndsInNil e = false) := by
  constructor
  · intro vs
    simp [sexpToList, exprToImproperList_listToSexp vs]
  · intro e
    have h := exprToImproperList_last_nil e
    simp only [sexpToList]
    rcases hlast : (exprToImproperList e).2 with _ | _ | _ | _ | _ | _ | _ | _ | _ <;>
      simp_all

theorem listToSexp_improper :
    ∀ (e : Expr), (exprToImproperList e).2 = .nil →
      listToSexp (exprToImproperList e).1 = e
  | .pair car cdr => by
      have ih := listToSexp_improper cdr
      simp only [exprToImproperList, listToSexp]
      intro hlast
      simp_all
  | .nil => by simp [exprToImproperList, listToSexp]
  | .integer _ => by simp [exprToImproperList]
  | .float _ => by simp [exprToImproperList]
  | .string _ => by simp [exprToImproperList]
  | .symbol _ => by simp [exprToImproperList]
  | .specialForm _ _ => by simp [exprToImproperList]
  | .nativeProcedure _ _ => by simp [exprToImproperList]
  | .procedure _ _ _ _ => by simp [exprToImproperList]

theorem sexpToList_some (e : Expr) (l : List Expr)
    (h : sexpToList e = some l) : e = listToSexp l := by
  rcases hx : exprToImproperList e with ⟨elems, last⟩
  rw [sexpToList, hx] at h
  cases last <;> simp_all
  rw [← listToSexp_improper e (by rw [hx]), hx]

/-- C8: `make_err` constructs a proper list of exactly two (no payload)
or three (payload) elements — the interned `!` marker symbol, the message
string, then the payload — the spec §6 error check (a pair whose first
element is the marker) accepts every such value, and conversely every
proper list of that two- or three-element shape is one `make_err` can
construct (under an engine whose marker symbol is its head), so the shape
characterises the constructed error values exactly. -/
theorem make_err_shape (eng : Engine) (msg : String) (ud : Option Expr) :
    ((makeErr eng msg ud).1 = (eng.internSymbol "!").1 ∧
    sexpToList (makeErr eng msg ud).2 =
      some (Expr.symbol (eng.internSymbol "!").2 :: Expr.string msg ::
        (match ud with | none => [] | some d => [d])) ∧
    (sexpToList (makeErr eng msg ud).2).map List.length =
      some (match ud with | none => 2 | some _ => 3) ∧
    isErrorCheck (eng.internSymbol "!").2 (makeErr eng msg ud).2 = true) ∧
    (∀ (bang : Symbol) (m : String) (e : Expr),
      sexpToList e = some [.symbol bang, .string m] →
      e = (makeErr ⟨[("!", bang)], bang + 1⟩ m none).2) ∧
    (∀ (bang : Symbol) (m : String) (d e : Expr),
      sexpToList e = some [.symbol bang, .string m, d] →
      e = (makeErr ⟨[("!", bang)], bang + 1⟩ m (some d)).2) := by
  refine ⟨?_, ?_, ?_⟩
  · cases ud <;> cases h : eng.getByLeft "!" <;>
      simp [makeErr, Engine.internSymbol, h, listToSexp, sexpToList,
        exprToImproperList, isErrorCheck]
  · intro bang m e he
    rw [sexpToList_some e _ he]
    simp [makeErr, Engine.internSymbol, Engine.getByLeft]
  · intro bang m d e he
    rw [sexpToList_some e _ he]
    simp [makeErr, Engine.internSymbol, Engine.getByLeft]

/-- The variants the single-step dispatch passes through unchanged
(`src/src/eval/mod.rs` lines 29-36, plus `Float` per spec §4.1): every
variant that denotes a value rather than syntax to reduce. -/
def isSelfEvaluating : Expr → Bool
  | .integer _ | .float _ | .string _ | .nil | .specialForm _ _
  | .nativeProcedure _ _ | .procedure _ _ _ _ => true
  | .symbol _ | .pair _ _ => false

/-- C2: under any environment, any heap, any standard library and any
fuel, a self-evaluating expression single-steps to itself with the state
untouched. -/
theorem self_evaluating_passthru (impls : Impls) (fuel : Nat)
    (st : EState) (env : EnvRef) (e : Expr)
    (h : isSelfEvaluating e = true) :
    evalRec impls (fuel + 1) st env e = some (st, .ok e) := by
  cases e <;> simp_all [isSelfEvaluating, evalRec]

/-- A trivial standard library: both calling conventions answer `()`.
Used only to instantiate witnesses; the theorems hold for any table. -/
def trivImpls : Impls :=
  ⟨fun _ st _ _ => (st, .ok .nil), fun _ st _ => (st, .nil)⟩

/-- Witness fixture: a fresh engine over a heap holding one root
namespace with no bindings. -/
def st0 : EState := ⟨⟨[], 0⟩, [⟨[], none⟩]⟩

/-- Witness fixture: symbol 3 (the string `x`) bound to 9 in the root. -/
def stx : EState := ⟨⟨[("x", 3)], 4⟩, [⟨[(3, .integer 9)], none⟩]⟩

theorem self_evaluating_passthru_witness :
    isSelfEvaluating (.integer 3) = true ∧
    evalRec trivImpls 1 st0 0 (.integer 3) = some (st0, .ok (.integer 3)) :=
  ⟨rfl, self_evaluating_passthru trivImpls 0 st0 0 (.integer 3) rfl⟩

/-- C7: single-stepping a symbol resolves it through the environment
chain: a hit returns the bound value with the state untouched; a miss
returns (never a host failure — the step is always `some`) a tagged error
value built by `make_err`, whose message names the symbol's printed form
and says it is undefined, carrying the symbol as payload. -/
theorem symbol_lookup_or_undefined_error (impls : Impls) (fuel : Nat)
    (st : EState) (env : EnvRef) (id : Symbol) :
    (∀ v, envLookup st.heap env id = some v →
      evalRec impls (fuel + 1) st env (.symbol id) = some (st, .ok v)) ∧
    (envLookup st.heap env id = none →
      evalRec impls (fuel + 1) st env (.symbol id) =
        some ({ st with eng := (st.eng.internSymbol "!").1 },
          .ok (listToSexp
            [.symbol (st.eng.internSymbol "!").2,
             .string ("application: '" ++ writeExpr st.eng (.symbol id) ++
               " is undefined"),
             .symbol id])) ∧
      isErrorCheck (st.eng.internSymbol "!").2
        (listToSexp
          [.symbol (st.eng.internSymbol "!").2,
           .string ("application: '" ++ writeExpr st.eng (.symbol id) ++
             " is undefined"),
           .symbol id]) = true) ∧
    (evalRec impls (fuel + 1) st env (.symbol id)).isSome = true := by
  refine ⟨?_, ?_, ?_⟩
  · intro v hv
    simp [evalRec, hv]
  · intro hn
    cases h : st.eng.getByLeft "!" <;>
      simp [evalRec, hn, makeErr, Engine.internSymbol, h, listToSexp,
        isErrorCheck]
  · cases hv : envLookup st.heap env id <;> simp [evalRec, hv, makeErr]

theorem symbol_lookup_or_undefined_error_witness :
    (envLookup stx.heap 0 3 = some (.integer 9) ∧
      evalRec trivImpls 1 stx 0 (.symbol 3) =
        some (stx, .ok (.integer 9))) ∧
    (envLookup st0.heap 0 3 = none ∧
      evalRec trivImpls 1 st0 0 (.symbol 3) =
        some ({ st0 with eng := (st0.eng.internSymbol "!").1 },
          .ok (listToSexp
            [.symbol (st0.eng.internSymbol "!").2,
             .string ("application: '" ++ writeExpr st0.eng (.symbol 3) ++
               " is undefined"),
             .symbol 3]))) := by
  have hsome : envLookup stx.heap 0 3 = some (.integer 9) := by
    simp [envLookup, stx, lookupMapping]
  have hnone : envLookup st0.heap 0 3 = none := by
    simp [envLookup, st0, lookupMapping]
  exact ⟨⟨hsome,
      (symbol_lookup_or_undefined_error trivImpls 0 stx 0 3).1
        (.integer 9) hsome⟩,
    ⟨hnone,
      ((symbol_lookup_or_undefined_error trivImpls 0 st0 0 3).2.1
        hnone).1⟩⟩

/-- `lookup` as the first binding found walking the scope chain outward:
`envLookup` equals `findSome?` of the per-scope local lookup along
`envChain`. -/
theorem envLookup_eq_chain (h : Heap) (r : EnvRef) (sym : Symbol) :
    envLookup h r sym =
      (envChain h r).findSome?
        (fun i => h[i]?.bind
          (fun ns => lookupMapping ns.mappings sym)) := by
  rw [envLookup, envChain]
  cases hg : h[r]? with
  | none => simp [List.findSome?, hg]
  | some ns =>
      cases hl : lookupMapping ns.mappings sym with
      | some v =>
          cases hp : ns.parent with
          | none => simp [List.findSome?, hg, hl, hp]
          | some p =>
              by_cases hlt : p < r <;>
                simp [List.findSome?, hg, hl, hp, hlt]
      | none =>
          cases hp : ns.parent with
          | none => simp [List.findSome?, hg, hl, hp]
          | some p =>
              by_cases hlt : p < r
              · have ih := envLookup_eq_chain h p sym
                simp [List.findSome?, hg, hl, hp, hlt, ih]
              · simp [List.findSome?, hg, hl, hp, hlt]
termination_by r

/-- C9: mutation through `Namespace::insert` touches exactly the scope
it is invoked on — every other cell of the heap (in particular every
ancestor) is unchanged, and even in the touched cell only the mapping
changes, never the parent link — and `Namespace::lookup` checks the local
mapping first and otherwise delegates outward, returning precisely the
first binding on the walked-outward chain (`none` when no scope in the
chain binds the symbol). -/
theorem namespace_insert_local_lookup_chain :
    (∀ (h : Heap) (r r' : EnvRef) (sym : Symbol) (v : Expr), r' ≠ r →
      (heapInsert h r sym v)[r']? = h[r']?) ∧
    (∀ (h : Heap) (r : EnvRef) (sym : Symbol) (v : Expr),
      (heapInsert h r sym v)[r]? =
        h[r]?.map (fun ns => ns.insert sym v)) ∧
    (∀ (h : Heap) (r : EnvRef) (sym : Symbol),
      envLookup h r sym =
        (envChain h r).findSome?
          (fun i => h[i]?.bind
            (fun ns => lookupMapping ns.mappings sym))) := by
  refine ⟨?_, ?_, fun h r sym => envLookup_eq_chain h r sym⟩
  · intro h r r' sym v hne
    unfold heapInsert
    cases hg : h[r]? with
    | none => rfl
    | some ns => exact List.getElem?_set_ne (fun hc => hne hc.symm)
  · intro h r sym v
    unfold heapInsert
    cases hg : h[r]? with
    | none => simp [hg]
    | some ns =>
        have hlt : r < h.length := by
          by_contra hge
          rw [List.getElem?_eq_none (Nat.le_of_not_lt hge)] at hg
          exact Option.noConfusion hg
        simp [List.getElem?_set_self, hlt]

/-- Witness heap for C9: a root scope and a child scope. -/
def heap2 : Heap :=
  [⟨[(0, .integer 1)], none⟩, ⟨[(2, .integer 5)], some 0⟩]

theorem namespace_insert_local_lookup_chain_witness :
    (heapInsert heap2 1 7 (.integer 9))[0]? = heap2[0]? ∧
    (heapInsert heap2 1 7 (.integer 9))[1]? =
      heap2[1]?.map (fun ns => ns.insert 7 (.integer 9)) ∧
    envLookup heap2 1 0 =
      (envChain heap2 1).findSome?
        (fun i => heap2[i]?.bind
          (fun ns => lookupMapping ns.mappings 0)) :=
  ⟨namespace_insert_local_lookup_chain.1 heap2 1 0 7 (.integer 9)
      (by decide),
   namespace_insert_local_lookup_chain.2.1 heap2 1 7 (.integer 9),
   namespace_insert_local_lookup_chain.2.2 heap2 1 0⟩

theorem makeErr_some (eng : Engine) (msg : String) (d : Expr) :
    makeErr eng msg (some d) =
      ((eng.internSymbol "!").1,
        listToSexp [.symbol (eng.internSymbol "!").2, .string msg, d]) := by
  cases h : eng.getByLeft "!" <;>
    simp [makeErr, Engine.internSymbol, h]

theorem lookupMapping_cons_isSome (sym : Symbol) (v : Expr)
    (acc : List (Symbol × Expr)) (s : Symbol)
    (h : (lookupMapping acc s).isSome = true ∨ s = sym) :
    (lookupMapping ((sym, v) :: acc) s).isSome = true := by
  by_cases he : sym = s
  · simp [lookupMapping, he]
  · rcases h with h | h
    · simpa [lookupMapping, he] using h
    · exact absurd h.symm he

/-- Running out of arguments: if fewer evaluated arguments than remaining
parameters are available (and the loop counter has not yet passed the
supply), the non-variadic binding loop stops at index `vals.length` and
produces exactly the arity error, yielding no binding map. -/
theorem bindArgsGo_arity_error (eng : Engine) (total : Nat)
    (vals : List Expr) :
    ∀ (rest : List Symbol) (idx : Nat) (acc : List (Symbol × Expr)),
      idx ≤ vals.length → vals.length < idx + rest.length →
      bindArgsGo eng total false vals idx rest acc =
        (((eng.internSymbol "false").1.internSymbol "!").1,
         .error (listToSexp
           [.symbol ((eng.internSymbol "false").1.internSymbol "!").2,
            .string ("application: expected " ++ toString total ++
              " args but only got " ++ toString vals.length),
            listToSexp [.integer total,
              .symbol (eng.internSymbol "false").2,
              .integer vals.length]]))
  | [], idx, acc => by
      intro hle hlt
      simp at hlt
      omega
  | sym :: rest, idx, acc => by
      intro hle hlt
      simp at hlt
      by_cases hidx : idx < vals.length
      · have hv : vals[idx]? = some vals[idx] :=
          List.getElem?_eq_getElem hidx
        have ih := bindArgsGo_arity_error eng total vals rest (idx + 1)
          ((sym, vals[idx]) :: acc) (by omega) (by omega)
        simp [bindArgsGo, hv, ih]
      · have hidx' : idx = vals.length := by omega
        subst hidx'
        have hv : vals[vals.length]? = none :=
          List.getElem?_eq_none (Nat.le_refl _)
        simp [bindArgsGo, hv, makeErr_some]

/-- Enough arguments: with at least as many evaluated arguments as
remaining parameters, the non-variadic binding loop succeeds without
touching the engine, and the produced map binds every remaining
parameter (and keeps everything already bound). -/
theorem bindArgsGo_enough (eng : Engine) (total : Nat)
    (vals : List Expr) :
    ∀ (rest : List Symbol) (idx : Nat) (acc : List (Symbol × Expr)),
      idx + rest.length ≤ vals.length →
      ∃ m, bindArgsGo eng total false vals idx rest acc = (eng, .ok m) ∧
        (∀ s, s ∈ rest → (lookupMapping m s).isSome = true) ∧
        (∀ s, (lookupMapping acc s).isSome = true →
          (lookupMapping m s).isSome = true)
  | [], idx, acc => by
      intro _
      exact ⟨acc, rfl, by simp, fun s hs => hs⟩
  | sym :: rest, idx, acc => by
      intro hle
      simp at hle
      have hidx : idx < vals.length := by omega
      have hv : vals[idx]? = some vals[idx] :=
        List.getElem?_eq_getElem hidx
      rcases bindArgsGo_enough eng total vals rest (idx + 1)
          ((sym, vals[idx]) :: acc) (by omega) with ⟨m, hm, hmem, hacc⟩
      refine ⟨m, by simp [bindArgsGo, hv, hm], ?_, ?_⟩
      · intro s hs
        rcases List.mem_cons.mp hs with rfl | hs'
        · exact hacc s (lookupMapping_cons_isSome s vals[idx] acc s
            (Or.inr rfl))
        · exact hmem s hs'
      · intro s hs
        exact hacc s (lookupMapping_cons_isSome sym vals[idx] acc s
          (Or.inl hs))

/-- C3: calling a non-variadic procedure with `k` evaluated arguments for
`n` declared parameters, `k < n`: the binding loop aborts with the arity
error value — marker, the "expected n args but only got k" message, and
the `(n false k)` diagnostic payload (declared count, variadic flag,
supplied count) — and yields no binding map; with exactly `n` arguments
it succeeds, binding every declared parameter.  Third part: inside the
single-step function the arity error is returned *before* the new
namespace is allocated, so the heap is exactly the heap after argument
evaluation — no partially-filled scope is ever installed. -/
theorem arity_error_payload (eng : Engine) (names : List Symbol)
    (vals : List Expr) :
    (vals.length < names.length →
      bindArgs eng names false vals =
        (((eng.internSymbol "false").1.internSymbol "!").1,
         .error (listToSexp
           [.symbol ((eng.internSymbol "false").1.internSymbol "!").2,
            .string ("application: expected " ++ toString names.length ++
              " args but only got " ++ toString vals.length),
            listToSexp [.integer names.length,
              .symbol (eng.internSymbol "false").2,
              .integer vals.length]]))) ∧
    (vals.length = names.length →
      ∃ m, bindArgs eng names false vals = (eng, .ok m) ∧
        ∀ s, s ∈ names → (lookupMapping m s).isSome = true) ∧
    (∀ (impls : Impls) (fuel : Nat) (st st1 st2 : EState) (env : EnvRef)
        (car cdr : Expr) (body : List Expr) (cenv : EnvRef)
        (ops : List Expr) (e : Expr) (eng' : Engine),
      eval impls fuel st env car =
        some (st1, .procedure names body cenv false) →
      sexpToList cdr = some ops →
      evalArgs impls fuel st1 env ops = some (st2, vals) →
      bindArgs st2.eng names false vals = (eng', .error e) →
      evalRec impls (fuel + 1) st env (.pair car cdr) =
        some (⟨eng', st2.heap⟩, .ok e)) := by
  refine ⟨?_, ?_, ?_⟩
  · intro hlt
    exact bindArgsGo_arity_error eng names.length vals names 0 []
      (Nat.zero_le _) (by simpa using hlt)
  · intro heq
    rcases bindArgsGo_enough eng names.length vals names 0 []
        (by simp [heq]) with ⟨m, hm, hmem, _⟩
    exact ⟨m, hm, hmem⟩
  · intro impls fuel st st1 st2 env car cdr body cenv ops e eng'
      hcar hops hargs hbind
    simp [evalRec, hcar, hops, hargs, hbind]

/-- Witness fixture: `(lambda (a b) a)` — two parameters, body `a`. -/
def proc2 : Expr := .procedure [7, 8] [.symbol 7] 0 false

theorem arity_error_payload_witness :
    bindArgs ⟨[], 0⟩ [7, 8] false [.integer 1] =
      (⟨[("false", 0), ("!", 1)], 2⟩,
       .error (listToSexp
         [.symbol 1,
          .string "application: expected 2 args but only got 1",
          listToSexp [.integer 2, .symbol 0, .integer 1]])) ∧
    (∃ m, bindArgs ⟨[], 0⟩ [7, 8] false [.integer 1, .integer 2] =
      (⟨[], 0⟩, .ok m) ∧
      ∀ s, s ∈ [7, 8] → (lookupMapping m s).isSome = true) ∧
    evalRec trivImpls 6 st0 0 (.pair proc2 (listToSexp [.integer 42])) =
      some (⟨⟨[("false", 0), ("!", 1)], 2⟩, st0.heap⟩,
        .ok (listToSexp
          [.symbol 1,
           .string "application: expected 2 args but only got 1",
           listToSexp [.integer 2, .symbol 0, .integer 1]])) := by
  have h1 := (arity_error_payload ⟨[], 0⟩ [7, 8] [.integer 1]).1
    (by decide)
  have h2 := (arity_error_payload ⟨[], 0⟩ [7, 8]
    [.integer 1, .integer 2]).2.1 (by decide)
  have hcar : eval trivImpls 5 st0 0 proc2 =
      some (st0, .procedure [7, 8] [.symbol 7] 0 false) := by
    simp [eval, evalRec, proc2, st0]
  have hargs : evalArgs trivImpls 5 st0 0 [.integer 42] =
      some (st0, [.integer 42]) := by
    simp [evalArgs, eval, evalRec]
  have hbind : bindArgs st0.eng [7, 8] false [.integer 42] =
      (⟨[("false", 0), ("!", 1)], 2⟩,
       .error (listToSexp
         [.symbol 1,
          .string "application: expected 2 args but only got 1",
          listToSexp [.integer 2, .symbol 0, .integer 1]])) := by
    have := (arity_error_payload st0.eng [7, 8] [.integer 42]).1
      (by decide)
    exact this.trans (by rfl)
  have h3 := (arity_error_payload ⟨[], 0⟩ [7, 8] [.integer 42]).2.2
    trivImpls 5 st0 st0 st0 0 proc2 (listToSexp [.integer 42])
    [.symbol 7] 0 [.integer 42]
    (listToSexp
      [.symbol 1,
       .string "application: expected 2 args but only got 1",
       listToSexp [.integer 2, .symbol 0, .integer 1]])
    ⟨[("false", 0), ("!", 1)], 2⟩ hcar (by rfl) hargs hbind
  exact ⟨by simpa using h1, by simpa using h2, by simpa using h3⟩

/-- Unfolding of the single-step function on a successful procedure
application (`src/src/eval/mod.rs` lines 74-134): the operator evaluates
to a closure, the operand chain is proper, the operands evaluate in the
*caller's* environment `env`, binding succeeds, the body is nonempty and
its leading expressions evaluate; the step then allocates the new scope
with the *closure's* captured environment as parent and answers a
tail-call request for the last body expression in that scope. -/
theorem evalRec_procedure_step (impls : Impls) (fuel : Nat)
    (st st1 st2 st4 : EState) (env : EnvRef) (car cdr : Expr)
    (names : List Symbol) (body : List Expr) (cenv : EnvRef)
    (variadic : Bool) (ops vals : List Expr) (eng3 : Engine)
    (m : List (Symbol × Expr)) (bodyInit : List Expr) (tail : Expr)
    (hcar : eval impls fuel st env car =
      some (st1, .procedure names body cenv variadic))
    (hops : sexpToList cdr = some ops)
    (hargs : evalArgs impls fuel st1 env ops = some (st2, vals))
    (hbind : bindArgs st2.eng names variadic vals = (eng3, .ok m))
    (hsplit : splitLast body = some (bodyInit, tail))
    (hbody : evalBody impls fuel
      ⟨eng3, st2.heap ++ [⟨m, some cenv⟩]⟩ st2.heap.length bodyInit =
      some st4) :
    evalRec impls (fuel + 1) st env (.pair car cdr) =
      some (st4, .error ⟨tail, st2.heap.length⟩) := by
  simp [evalRec, hcar, hops, hargs, hbind, hsplit, hbody]

/-- C4: procedure application is lexically scoped — under the
application hypotheses of `evalRec_procedure_step` (in which every
call-site operand is evaluated, eagerly, by `evalArgs` in the caller's
environment `env`), the scope the tail-call request runs in is the one
freshly allocated at the end of the heap, and that scope's parent is
`cenv`, the closure's captured defining environment — not `env`. -/
theorem lexical_scoping_application (impls : Impls) (fuel : Nat)
    (st st1 st2 st4 : EState) (env : EnvRef) (car cdr : Expr)
    (names : List Symbol) (body : List Expr) (cenv : EnvRef)
    (variadic : Bool) (ops vals : List Expr) (eng3 : Engine)
    (m : List (Symbol × Expr)) (bodyInit : List Expr) (tail : Expr)
    (hcar : eval impls fuel st env car =
      some (st1, .procedure names body cenv variadic))
    (hops : sexpToList cdr = some ops)
    (hargs : evalArgs impls fuel st1 env ops = some (st2, vals))
    (hbind : bindArgs st2.eng names variadic vals = (eng3, .ok m))
    (hsplit : splitLast body = some (bodyInit, tail))
    (hbody : evalBody impls fuel
      ⟨eng3, st2.heap ++ [⟨m, some cenv⟩]⟩ st2.heap.length bodyInit =
      some st4) :
    evalRec impls (fuel + 1) st env (.pair car cdr) =
      some (st4, .error ⟨tail, st2.heap.length⟩) ∧
    (st2.heap ++ [⟨m, some cenv⟩])[st2.heap.length]? =
      some ⟨m, some cenv⟩ := by
  refine ⟨evalRec_procedure_step impls fuel st st1 st2 st4 env car cdr
    names body cenv variadic ops vals eng3 m bodyInit tail
    hcar hops hargs hbind hsplit hbody, ?_⟩
  simp

/-- Witness fixture: the identity procedure `(lambda (a) a)`. -/
def idProc : Expr := .procedure [7] [.symbol 7] 0 false

/-- Witness fixture: the heap state after applying `idProc` to `42`
starting from `st0`. -/
def stId : EState := ⟨⟨[], 0⟩, [⟨[], none⟩, ⟨[(7, .integer 42)], some 0⟩]⟩

theorem lexical_scoping_application_witness :
    evalRec trivImpls 6 st0 0 (.pair idProc (listToSexp [.integer 42])) =
      some (stId, .error ⟨.symbol 7, 1⟩) ∧
    (st0.heap ++ [⟨[(7, .integer 42)], some 0⟩])[1]? =
      some ⟨[(7, .integer 42)], some 0⟩ := by
  have hcar : eval trivImpls 5 st0 0 idProc =
      some (st0, .procedure [7] [.symbol 7] 0 false) := by
    simp [eval, evalRec, idProc, st0]
  have hargs : evalArgs trivImpls 5 st0 0 [.integer 42] =
      some (st0, [.integer 42]) := by
    simp [evalArgs, eval, evalRec]
  have hbody : evalBody trivImpls 5 stId 1 [] = some stId := by
    simp [evalBody]
  have h := lexical_scoping_application trivImpls 5 st0 st0 st0 stId 0
    idProc (listToSexp [.integer 42]) [7] [.symbol 7] 0 false
    [.integer 42] [.integer 42] ⟨[], 0⟩ [(7, .integer 42)] []
    (.symbol 7) hcar (by rfl) hargs (by rfl) (by rfl)
    (by simpa [st0, stId] using hbody)
  simpa [st0, stId] using h

/-- C1: the trampoline.  Part 1: one turn of `Engine::eval`'s loop —
when the single-step function answers a final value the loop stops with
it, and when it answers a tail-call request the loop *substitutes* the
request's expression and environment into its own loop variables and
continues, instead of recursing on them.  Part 2: a procedure call in
tail position is executed exactly by such a request: the single-step
function returns the last body expression and new scope to the loop
rather than evaluating them itself.  Part 3: one entry of `eval`
therefore consumes an arbitrarily long finite chain of tail-call
requests iteratively — for every `n`, if `n` successive single steps
each answer a request and the next answers a value, the single outer
`eval` call delivers that value. -/
theorem tail_call_trampoline :
    (∀ (impls : Impls) (fuel : Nat) (st : EState) (env : EnvRef)
        (e : Expr),
      (∀ st1 v, evalRec impls fuel st env e = some (st1, .ok v) →
        eval impls (fuel + 1) st env e = some (st1, v)) ∧
      (∀ st1 tc, evalRec impls fuel st env e = some (st1, .error tc) →
        eval impls (fuel + 1) st env e =
          eval impls fuel st1 tc.env tc.expr)) ∧
    (∀ (impls : Impls) (fuel : Nat) (st st1 st2 st4 : EState)
        (env : EnvRef) (car cdr : Expr) (names : List Symbol)
        (body : List Expr) (cenv : EnvRef) (variadic : Bool)
        (ops vals : List Expr) (eng3 : Engine)
        (m : List (Symbol × Expr)) (bodyInit : List Expr) (tail : Expr),
      eval impls fuel st env car =
        some (st1, .procedure names body cenv variadic) →
      sexpToList cdr = some ops →
      evalArgs impls fuel st1 env ops = some (st2, vals) →
      bindArgs st2.eng names variadic vals = (eng3, .ok m) →
      splitLast body = some (bodyInit, tail) →
      evalBody impls fuel
        ⟨eng3, st2.heap ++ [⟨m, some cenv⟩]⟩ st2.heap.length bodyInit =
        some st4 →
      evalRec impls (fuel + 1) st env (.pair car cdr) =
        some (st4, .error ⟨tail, st2.heap.length⟩)) ∧
    (∀ (impls : Impls) (n F : Nat) (s : Nat → EState × EnvRef × Expr)
        (stF : EState) (v : Expr),
      (∀ i, i < n →
        evalRec impls (F - 1 - i) (s i).1 (s i).2.1 (s i).2.2 =
          some ((s (i + 1)).1,
            .error ⟨(s (i + 1)).2.2, (s (i + 1)).2.1⟩)) →
      evalRec impls (F - 1 - n) (s n).1 (s n).2.1 (s n).2.2 =
        some (stF, .ok v) →
      n < F →
      eval impls F (s 0).1 (s 0).2.1 (s 0).2.2 = some (stF, v)) := by
  refine ⟨?_, ?_, ?_⟩
  · intro impls fuel st env e
    constructor
    · intro st1 v h
      simp [eval, h]
    · intro st1 tc h
      simp [eval, h]
  · intro impls fuel st st1 st2 st4 env car cdr names body cenv variadic
      ops vals eng3 m bodyInit tail hcar hops hargs hbind hsplit hbody
    exact evalRec_procedure_step impls fuel st st1 st2 st4 env car cdr
      names body cenv variadic ops vals eng3 m bodyInit tail
      hcar hops hargs hbind hsplit hbody
  · intro impls n
    induction n with
    | zero =>
        intro F s stF v _ hfinal hF
        obtain ⟨F', rfl⟩ : ∃ F', F = F' + 1 :=
          ⟨F - 1, by omega⟩
        have : F' + 1 - 1 - 0 = F' := by omega
        rw [this] at hfinal
        simp [eval, hfinal]
    | succ n ih =>
        intro F s stF v hsteps hfinal hF
        obtain ⟨F', rfl⟩ : ∃ F', F = F' + 1 :=
          ⟨F - 1, by omega⟩
        have h0 := hsteps 0 (Nat.succ_pos n)
        have hstep0 : F' + 1 - 1 - 0 = F' := by omega
        rw [hstep0] at h0
        have hrest := ih F' (fun i => s (i + 1)) stF v
          (fun i hi => by
            have := hsteps (i + 1) (by omega)
            have harith : F' + 1 - 1 - (i + 1) = F' - 1 - i := by omega
            rw [harith] at this
            exact this)
          (by
            have harith : F' + 1 - 1 - (n + 1) = F' - 1 - n := by omega
            rw [harith] at hfinal
            exact hfinal)
          (by omega)
        calc eval impls (F' + 1) (s 0).1 (s 0).2.1 (s 0).2.2
            = eval impls F' (s 1).1 (s 1).2.1 (s 1).2.2 := by
              simp [eval, h0]
          _ = some (stF, v) := hrest

/-- Witness fixture: `(lambda (a) 99)` — the tail expression is the
literal `99`. -/
def constProc : Expr := .procedure [7] [.integer 99] 0 false

theorem tail_call_trampoline_witness :
    eval trivImpls 6 st0 0 (.pair constProc (listToSexp [.integer 42])) =
      some (stId, .integer 99) := by
  have hstep : evalRec trivImpls 5 st0 0
      (.pair constProc (listToSexp [.integer 42])) =
      some (stId, .error ⟨.integer 99, 1⟩) := by
    have hcar : eval trivImpls 4 st0 0 constProc =
        some (st0, .procedure [7] [.integer 99] 0 false) := by
      simp [eval, evalRec, constProc, st0]
    have hargs : evalArgs trivImpls 4 st0 0 [.integer 42] =
        some (st0, [.integer 42]) := by
      simp [evalArgs, eval, evalRec]
    have hbody : evalBody trivImpls 4 stId 1 [] = some stId := by
      simp [evalBody]
    simpa [st0, stId] using evalRec_procedure_step trivImpls 4
      st0 st0 st0 stId 0 constProc (listToSexp [.integer 42])
      [7] [.integer 99] 0 false [.integer 42] [.integer 42] ⟨[], 0⟩
      [(7, .integer 42)] [] (.integer 99) hcar (by rfl) hargs
      (by rfl) (by rfl) (by simpa [st0, stId] using hbody)
  have hfinal : evalRec trivImpls 4 stId 1 (.integer 99) =
      some (stId, .ok (.integer 99)) := by
    simp [evalRec]
  exact tail_call_trampoline.2.2 trivImpls 1 6
    (fun i => if i = 0
      then (st0, 0, .pair constProc (listToSexp [.integer 42]))
      else (stId, 1, .integer 99))
    stId (.integer 99)
    (fun i hi => by
      have hi0 : i = 0 := by omega
      subst hi0
      simpa using hstep)
    (by simpa using hfinal)
    (by omega)

namespace Destructure

/-- `recurse_opt` with no value ignores its pattern entirely: the
no-value check comes before any inspection of the pattern, so every
pattern — the wildcard included — receives the same no-default failure. -/
theorem recurseOpt_none_const (eng : Ruth.Engine) (s s' : DExpr) :
    recurseOpt eng s none = recurseOpt eng s' none := by
  simp [recurseOpt]

/-- C5 counterexample: in an engine where `_` is interned as symbol 0,
matching the wildcard pattern against "no value" does *not* succeed with
no bindings — it fails with the no-default error, because `recurse_opt`
rejects the absent value before ever looking at the pattern. -/
theorem wildcard_no_value_fails :
    (recurseOpt ⟨[("_", 0)], 1⟩ (.symbol 0) none).2 =
      .error ⟨"assignment/no-default",
        "lack of value with no default", none⟩ ∧
    (recurseOpt ⟨[("_", 0)], 1⟩ (.symbol 0) none).2 ≠
      .ok ([] : Bindings) := by
  have h : (recurseOpt ⟨[("_", 0)], 1⟩ (.symbol 0) none).2 =
      .error ⟨"assignment/no-default",
        "lack of value with no default", none⟩ := by
    simp [recurseOpt, makeExc]
  exact ⟨h, by simp [h]⟩

/-- C5 (amended): the wildcard pattern matches any *present* value,
contributing no bindings; matched against "no value" the binder instead
fails with the no-default error (absence is rejected by `recurse_opt`
before the pattern — wildcard or not — is inspected). -/
theorem wildcard_amended :
    (∀ (eng : Ruth.Engine) (v : DExpr),
      recurse eng (.symbol (eng.internSymbol "_").2) v =
        ((eng.internSymbol "_").1, .ok [])) ∧
    (∀ (eng : Ruth.Engine) (spec : DExpr),
      recurseOpt eng spec none =
        ((eng.internSymbol "default").1,
         .error (makeExc "assignment/no-default"
           "lack of value with no default" none))) := by
  constructor
  · intro eng v
    rcases h : eng.internSymbol "_" with ⟨eng1, u⟩
    cases v <;> simp [recurse, h]
  · intro eng spec
    rcases h : eng.internSymbol "default" with ⟨eng1, d⟩
    simp [recurseOpt, h]

/-- The claim's reading of the map rule (spec §4.2 rule 5), stated from
the spec's words for comparison with the source: for each pattern entry,
a key present in the value recurses the entry's *sub-pattern* against the
entry's value, and a missing key recurses the entry's *sub-pattern*
against "no value". -/
def mapMatchPerSpec (eng : Ruth.Engine)
    (entries valMap : List (DExpr × DExpr)) (acc : Bindings) :
    Ruth.Engine × Except Exception Bindings :=
  match entries with
  | [] => (eng, .ok acc)
  | (specK, specV) :: rest =>
      match mapGet valMap specK with
      | some valV =>
          match recurse eng specV valV with
          | (eng2, .error e) => (eng2, .error e)
          | (eng2, .ok m) =>
              mapMatchPerSpec eng2 rest valMap (extendBindings acc m)
      | none =>
          match recurseOpt eng specV none with
          | (eng2, .error e) => (eng2, .error e)
          | (eng2, .ok m) =>
              mapMatchPerSpec eng2 rest valMap (extendBindings acc m)

/-- C6: matching a map pattern against a map value proceeds per pattern
key — a key the value has recurses the key's sub-pattern against the
value's entry, a key the value lacks ends up matching the sub-pattern
against "no value".  The source hands the missing-key case the pattern
*key* instead of the sub-pattern, but `recurse_opt` without a value is
pattern-blind (`recurseOpt_none_const`), so the loop coincides exactly
with the spec's per-sub-pattern description. -/
theorem map_missing_key_no_value :
    (∀ (eng : Ruth.Engine) (sm vm : List (DExpr × DExpr)),
      recurse eng (.map sm) (.map vm) =
        recurseMapEntries (eng.internSymbol "_").1 sm vm []) ∧
    (∀ (eng : Ruth.Engine) (entries vm : List (DExpr × DExpr))
        (acc : Bindings),
      recurseMapEntries eng entries vm acc =
        mapMatchPerSpec eng entries vm acc) := by
  constructor
  · intro eng sm vm
    rcases h : eng.internSymbol "_" with ⟨eng1, u⟩
    simp [recurse, h]
  · intro eng entries
    induction entries generalizing eng with
    | nil =>
        intro vm acc
        simp [recurseMapEntries, mapMatchPerSpec]
    | cons kv rest ih =>
        intro vm acc
        rcases kv with ⟨specK, specV⟩
        rw [recurseMapEntries, mapMatchPerSpec]
        cases hget : mapGet vm specK with
        | some valV =>
            cases hr : recurse eng specV valV with
            | mk eng2 res =>
                cases res <;> simp [hr, ih]
        | none =>
            rw [recurseOpt_none_const eng specK specV]
            cases hr : recurseOpt eng specV none with
            | mk eng2 res =>
                cases res <;> simp [hr, ih]

end Destructure

end Ruth
